import Mathlib

/-!
Shallow embedding of the reverse-mode automatic differentiation engine in
`autodiff/core.py`.

Modelling choices:
* Python numbers (`int`/`float`) are modelled as exact rationals together with
  an explicit NaN element (`PyNum`); IEEE NaN propagation is modelled for the
  arithmetic the engine performs.  The transcendental `math.log` has no exact
  rational value, so it is abstracted as a function parameter `lg : ℚ → ℚ`;
  every theorem below holds for an arbitrary instantiation of `lg`.
* Python objects live in an arena: a `Heap` is a list of `Variable` records and
  object references are stable indices (`NodeId`).  Creating a `Variable`
  appends to the arena; attribute mutation replaces the record at an index.
* Fallible Python code (raising `ValueError`, `ZeroDivisionError`, ...) is
  modelled with `Except PyErr`; operations that can both mutate the arena and
  raise return the arena state together with the `Except` result, so that the
  arena contents at the moment an exception propagates stay observable.
* The unary transcendental methods `sin`/`cos` of the source are not referenced
  by anything proved here and are not modelled.
-/

/-- Object identifier: index of a node in the arena. -/
abbrev NodeId := Nat

/-- A Python number: an exact rational or the floating-point NaN. -/
inductive PyNum where
  | rat (q : ℚ)
  | nan
deriving DecidableEq, Repr

/-- Python errors raised by the engine (`ValueError` from the descriptor,
native arithmetic errors, attribute/type errors on `None`). -/
inductive PyErr where
  | valueError
  | zeroDivisionError
  | typeError
  | attributeError
  | unsupported
deriving DecidableEq, Repr

/-- Python `a + b` on numbers; NaN propagates. -/
def pyAdd : PyNum → PyNum → PyNum
  | .rat a, .rat b => .rat (a + b)
  | _, _ => .nan

/-- Python `a - b` on numbers; NaN propagates. -/
def pySub : PyNum → PyNum → PyNum
  | .rat a, .rat b => .rat (a - b)
  | _, _ => .nan

/-- Python `a * b` on numbers; NaN propagates. -/
def pyMul : PyNum → PyNum → PyNum
  | .rat a, .rat b => .rat (a * b)
  | _, _ => .nan

/-- Python unary `-a` on numbers. -/
def pyNeg : PyNum → PyNum
  | .rat a => .rat (-a)
  | .nan => .nan

/-- Python `a / b` on numbers: dividing by (exact) zero raises
`ZeroDivisionError`, otherwise NaN propagates. -/
def pyDiv : PyNum → PyNum → Except PyErr PyNum
  | .rat a, .rat b => if b = 0 then .error .zeroDivisionError else .ok (.rat (a / b))
  | .nan, .rat b => if b = 0 then .error .zeroDivisionError else .ok .nan
  | _, .nan => .ok .nan

/-- Python `a ** b` on numbers.  Integral exponents are modelled exactly
(`0 ** negative` raises `ZeroDivisionError` as in Python); `nan ** 0 = 1` and
`1 ** nan = 1` follow IEEE `pow`, and NaN propagates otherwise.  A non-integral
exponent has no exact rational power and is outside this model (`unsupported`);
no statement below depends on that case. -/
def pyPow : PyNum → PyNum → Except PyErr PyNum
  | .rat a, .rat b =>
    if b.den = 1 then
      if a = 0 ∧ b.num < 0 then .error .zeroDivisionError
      else .ok (.rat (a ^ b.num))
    else .error .unsupported
  | .nan, .rat b => if b = 0 then .ok (.rat 1) else .ok .nan
  | .rat a, .nan => if a = 1 then .ok (.rat 1) else .ok .nan
  | .nan, .nan => .ok .nan

/-- Python `a > 0` on numbers; every comparison with NaN is false. -/
def PyNum.gtZero : PyNum → Bool
  | .rat q => decide (0 < q)
  | .nan => false

/-- A Python value that may be handed to the `Variable` constructor: a number,
or a non-numeric object such as a string or `None`. -/
inductive PyObject where
  | num (x : PyNum)
  | str (s : String)
  | none_
deriving DecidableEq, Repr

/-- The local backward rules of `core.py` (`_add_backward`, `_sub_backward`,
`_mul_backward`, `_pow_backward`, `_truediv_backward`), identified by the
binary operation they belong to. -/
inductive Op where
  | add
  | sub
  | mul
  | pow
  | div
deriving DecidableEq, Repr

/-- The `Variable` record of `core.py`: forward value, `requires_grad` flag,
optional accumulated gradient, optional backward rule, optional operand
references. -/
structure Variable where
  value : PyNum
  requiresGrad : Bool
  grad : Option PyNum
  operation : Option Op
  leftNode : Option NodeId
  rightNode : Option NodeId
deriving DecidableEq, Repr

/-- The arena of allocated `Variable` objects. -/
structure Heap where
  nodes : List Variable
deriving DecidableEq, Repr

/-- Dereference a node id. -/
def Heap.get? (h : Heap) (i : NodeId) : Option Variable :=
  h.nodes.get? i

/-- Number of allocated nodes; also the id the next allocation receives. -/
def Heap.size (h : Heap) : Nat :=
  h.nodes.length

/-- Allocate a new node at the end of the arena. -/
def Heap.push (h : Heap) (v : Variable) : Heap :=
  ⟨h.nodes ++ [v]⟩

/-- Replace the node stored at an id. -/
def Heap.setNode (h : Heap) (i : NodeId) (v : Variable) : Heap :=
  ⟨h.nodes.set i v⟩

/-- The guarded setter of `VariableDescriptor._check_value`: only `int`/`float`
values are accepted, anything else raises `ValueError`. -/
def checkValue : PyObject → Except PyErr PyNum
  | .num x => .ok x
  | _ => .error .valueError

/-- `Variable.__init__`: validate the value, then allocate the record with
`grad = 0 if requires_grad else None`. -/
def varInit (h : Heap) (value : PyObject) (operation : Option Op)
    (leftNode rightNode : Option NodeId) (requiresGrad : Bool) :
    Heap × Except PyErr NodeId :=
  match checkValue value with
  | .error e => (h, .error e)
  | .ok v =>
    (h.push
      { value := v
        requiresGrad := requiresGrad
        grad := if requiresGrad then some (.rat 0) else none
        operation := operation
        leftNode := leftNode
        rightNode := rightNode },
      .ok h.size)

/-- Leaf construction `Variable(value, requires_grad=rg)` with the remaining
constructor arguments at their defaults. -/
def mkVariable (h : Heap) (value : PyObject) (requiresGrad : Bool) :
    Heap × Except PyErr NodeId :=
  varInit h value none none none requiresGrad

/-- Forward value computation of each binary operation (the lambdas passed to
`_binary_general_calc`). -/
def forwardOp : Op → PyNum → PyNum → Except PyErr PyNum
  | .add, a, b => .ok (pyAdd a b)
  | .sub, a, b => .ok (pySub a b)
  | .mul, a, b => .ok (pyMul a b)
  | .pow, a, b => pyPow a b
  | .div, a, b => pyDiv a b

/-- The second operand of a binary operation: another `Variable` or a raw
number (`Var = Union[Variable, Num]`). -/
inductive Operand where
  | node (i : NodeId)
  | num (x : PyNum)
deriving DecidableEq, Repr

/-- Core of `_binary_general_calc` once the second operand is a node: compute
`requires_grad` as the OR of the operands, evaluate the forward operation
(letting its native error propagate with the arena unchanged), and build the
result node, attaching the backward rule only if the result requires grad. -/
def binCalcCore (h : Heap) (selfId secondId : NodeId) (op : Op) :
    Heap × Except PyErr NodeId :=
  match h.get? selfId, h.get? secondId with
  | some sv, some tv =>
    let rg := sv.requiresGrad || tv.requiresGrad
    match forwardOp op sv.value tv.value with
    | .error e => (h, .error e)
    | .ok v => varInit h (.num v) (if rg then some op else none)
        (some selfId) (some secondId) rg
  | _, _ => (h, .error .attributeError)

/-- `Variable._binary_general_calc`: a raw-number second operand is first
promoted via `Variable(second_node)` — with the constructor's default
`requires_grad=True`. -/
def binaryGeneralCalc (h : Heap) (selfId : NodeId) (second : Operand) (op : Op) :
    Heap × Except PyErr NodeId :=
  match second with
  | .node j => binCalcCore h selfId j op
  | .num x =>
    match varInit h (.num x) none none none true with
    | (h', .ok j) => binCalcCore h' selfId j op
    | (h', .error e) => (h', .error e)

/-- `Variable.__add__`. -/
def Variable.add (h : Heap) (i : NodeId) (other : Operand) : Heap × Except PyErr NodeId :=
  binaryGeneralCalc h i other .add

/-- `Variable.__radd__`: `other + self` delegates to `self + other`. -/
def Variable.radd (h : Heap) (i : NodeId) (other : PyNum) : Heap × Except PyErr NodeId :=
  Variable.add h i (.num other)

/-- `Variable.__sub__`. -/
def Variable.sub (h : Heap) (i : NodeId) (other : Operand) : Heap × Except PyErr NodeId :=
  binaryGeneralCalc h i other .sub

/-- `Variable.__mul__`. -/
def Variable.mul (h : Heap) (i : NodeId) (other : Operand) : Heap × Except PyErr NodeId :=
  binaryGeneralCalc h i other .mul

/-- `Variable.__neg__`: `-self` is `self * -1`. -/
def Variable.neg (h : Heap) (i : NodeId) : Heap × Except PyErr NodeId :=
  Variable.mul h i (.num (.rat (-1)))

/-- `Variable.__rsub__`: `other - self` is `-self + other`. -/
def Variable.rsub (h : Heap) (i : NodeId) (other : PyNum) : Heap × Except PyErr NodeId :=
  match Variable.neg h i with
  | (h', .ok j) => Variable.add h' j (.num other)
  | (h', .error e) => (h', .error e)

/-- `Variable.__rmul__`: `other * self` delegates to `self * other`. -/
def Variable.rmul (h : Heap) (i : NodeId) (other : PyNum) : Heap × Except PyErr NodeId :=
  Variable.mul h i (.num other)

/-- `Variable.__pow__`. -/
def Variable.pow (h : Heap) (i : NodeId) (other : Operand) : Heap × Except PyErr NodeId :=
  binaryGeneralCalc h i other .pow

/-- `Variable.__rpow__`: `other ** self` is
`Variable(other, requires_grad=False) ** self`. -/
def Variable.rpow (h : Heap) (i : NodeId) (other : PyNum) : Heap × Except PyErr NodeId :=
  match varInit h (.num other) none none none false with
  | (h', .ok j) => Variable.pow h' j (.node i)
  | (h', .error e) => (h', .error e)

/-- `Variable.__truediv__`. -/
def Variable.truediv (h : Heap) (i : NodeId) (other : Operand) : Heap × Except PyErr NodeId :=
  binaryGeneralCalc h i other .div

/-- `Variable.__rtruediv__`: `other / self` is `self ** -1 * other`. -/
def Variable.rtruediv (h : Heap) (i : NodeId) (other : PyNum) : Heap × Except PyErr NodeId :=
  match Variable.pow h i (.num (.rat (-1))) with
  | (h', .ok j) => Variable.mul h' j (.num other)
  | (h', .error e) => (h', .error e)

/-- One guarded accumulation
`if target.requires_grad: target.grad += deriv * self.grad` of
`_general_grad_calc`, reading the current state of both objects.  Reading a
`None` gradient into `+=` is the Python `TypeError`. -/
def gradStep (h : Heap) (selfId targetId : NodeId) (deriv : PyNum) :
    Except PyErr Heap :=
  match h.get? targetId, h.get? selfId with
  | some tv, some sv =>
    if tv.requiresGrad then
      match tv.grad, sv.grad with
      | some tg, some sg =>
        .ok (h.setNode targetId { tv with grad := some (pyAdd tg (pyMul deriv sg)) })
      | _, _ => .error .typeError
    else .ok h
  | _, _ => .error .attributeError

/-- `Variable._general_grad_calc`: accumulate into the left operand, then —
when a right operand exists — into the right operand. -/
def generalGradCalc (h : Heap) (selfId : NodeId) (dl dr : PyNum) :
    Except PyErr Heap :=
  match h.get? selfId with
  | none => .error .attributeError
  | some sv =>
    match sv.leftNode with
    | none => .error .attributeError
    | some li =>
      match gradStep h selfId li dl with
      | .error e => .error e
      | .ok h1 =>
        match sv.rightNode with
        | none => .ok h1
        | some ri => gradStep h1 selfId ri dr

/-- Exponent-side local derivative of `_pow_backward`:
`left_val ** right_val * log(left_val) if left_val > 0 else nan`. -/
def powGradRight (lg : ℚ → ℚ) (leftVal rightVal : PyNum) : Except PyErr PyNum :=
  match leftVal with
  | .rat a =>
    if 0 < a then
      match pyPow (.rat a) rightVal with
      | .error e => .error e
      | .ok p => .ok (pyMul p (.rat (lg a)))
    else .ok .nan
  | .nan => .ok .nan

/-- `Variable._pow_backward`: both local derivatives are evaluated (left one
first, as Python evaluates call arguments) before any accumulation. -/
def powBackward (lg : ℚ → ℚ) (h : Heap) (selfId : NodeId) : Except PyErr Heap :=
  match h.get? selfId with
  | none => .error .attributeError
  | some sv =>
    match sv.leftNode >>= h.get?, sv.rightNode >>= h.get? with
    | some lv, some rv =>
      match pyPow lv.value (pySub rv.value (.rat 1)) with
      | .error e => .error e
      | .ok base =>
        match powGradRight lg lv.value rv.value with
        | .error e => .error e
        | .ok dr => generalGradCalc h selfId (pyMul rv.value base) dr
    | _, _ => .error .attributeError

/-- `Variable._truediv_backward`: derivatives `1 / right` and
`-left / right ** 2`, evaluated in that order. -/
def divBackward (h : Heap) (selfId : NodeId) : Except PyErr Heap :=
  match h.get? selfId with
  | none => .error .attributeError
  | some sv =>
    match sv.leftNode >>= h.get?, sv.rightNode >>= h.get? with
    | some lv, some rv =>
      match pyDiv (.rat 1) rv.value with
      | .error e => .error e
      | .ok dl =>
        match pyPow rv.value (.rat 2) with
        | .error e => .error e
        | .ok d2 =>
          match pyDiv (pyNeg lv.value) d2 with
          | .error e => .error e
          | .ok dr => generalGradCalc h selfId dl dr
    | _, _ => .error .attributeError

/-- Dispatch of `curr_node._operation(curr_node)` to the stored backward
rule. -/
def applyOp (lg : ℚ → ℚ) (h : Heap) (selfId : NodeId) (op : Op) :
    Except PyErr Heap :=
  match op with
  | .add => generalGradCalc h selfId (.rat 1) (.rat 1)
  | .sub => generalGradCalc h selfId (.rat 1) (.rat (-1))
  | .mul =>
    match h.get? selfId with
    | none => .error .attributeError
    | some sv =>
      match sv.leftNode >>= h.get?, sv.rightNode >>= h.get? with
      | some lv, some rv => generalGradCalc h selfId rv.value lv.value
      | _, _ => .error .attributeError
  | .pow => powBackward lg h selfId
  | .div => divBackward h selfId

/-- The work-stack loop of `Variable.backward`, with explicit fuel: `none`
means the fuel ran out before the loop finished.  Popping a node that
`requires_grad` and carries an `operation` pushes its left then right operand
(so the right one is popped first) and fires the stored backward rule;
everything else is skipped. -/
def backwardLoop (lg : ℚ → ℚ) : Nat → Heap → List (Option NodeId) →
    Option (Except PyErr Heap)
  | 0, _, _ => none
  | _ + 1, h, [] => some (.ok h)
  | fuel + 1, h, none :: rest => backwardLoop lg fuel h rest
  | fuel + 1, h, some i :: rest =>
    match h.get? i with
    | none => some (.error .attributeError)
    | some v =>
      if v.requiresGrad then
        match v.operation with
        | some op =>
          match applyOp lg h i op with
          | .error e => some (.error e)
          | .ok h' => backwardLoop lg fuel h' (v.rightNode :: v.leftNode :: rest)
        | none => backwardLoop lg fuel h rest
      else backwardLoop lg fuel h rest

/-- `Variable.backward`: seed `self.grad = 1` unconditionally, then run the
work-stack loop starting from `self`. -/
def Variable.backward (lg : ℚ → ℚ) (fuel : Nat) (h : Heap) (i : NodeId) :
    Option (Except PyErr Heap) :=
  match h.get? i with
  | none => some (.error .attributeError)
  | some v =>
    backwardLoop lg fuel (h.setNode i { v with grad := some (.rat 1) }) [some i]

/-- `Variable.zero_grad`: a no-op unless `requires_grad`, otherwise reset the
gradient to 0. -/
def Variable.zeroGrad (h : Heap) (i : NodeId) : Heap :=
  match h.get? i with
  | none => h
  | some v =>
    if v.requiresGrad then h.setNode i { v with grad := some (.rat 0) } else h

/-- Operand references point strictly below the node's own id (every node only
references nodes that already existed when it was constructed). -/
def Variable.childrenBelow (v : Variable) (i : Nat) : Bool :=
  v.leftNode.all (· < i) && v.rightNode.all (· < i)

/-- Auxiliary recursion for `Heap.wfB`, carrying the id of the list head. -/
def wfAux : Nat → List Variable → Bool
  | _, [] => true
  | i, v :: rest => v.childrenBelow i && wfAux (i + 1) rest

/-- Decidable acyclicity-by-construction of the arena: every node's operand
references point strictly below its own id. -/
def Heap.wfB (h : Heap) : Bool :=
  wfAux 0 h.nodes

/-- Propositional form of `Heap.wfB`. -/
def Heap.WFp (h : Heap) : Prop :=
  ∀ i v, h.get? i = some v → v.childrenBelow i = true

/-- Chain a construction step onto a previous construction result, aborting on
a raised error (the arena state at the raise is kept). -/
def bindOp (r : Heap × Except PyErr NodeId)
    (f : Heap → NodeId → Heap × Except PyErr NodeId) : Heap × Except PyErr NodeId :=
  match r with
  | (h, .ok i) => f h i
  | (h, .error e) => (h, .error e)

/-- The diamond graph of §8: `x = Variable(1); z = x + x; w = z * z`, where the
intermediate node `z` is referenced by both operand slots of `w`. -/
def c1Build : Heap × Except PyErr NodeId :=
  bindOp (mkVariable ⟨[]⟩ (.num (.rat 1)) true) fun h x =>
  bindOp (Variable.add h x (.node x)) fun h' z =>
  Variable.mul h' z (.node z)

/-- The chain-rule example of §8: `x = Variable(2); y = Variable(3);
f = x*y + x**2 - 1/y` (node ids follow Python's evaluation order:
`x*y` is node 2, the promoted exponent 2 and `x**2` are nodes 3 and 4, the sum
is node 5, `1/y` builds nodes 6-9 via `y ** -1 * 1`, and `f` is node 10). -/
def c4Build : Heap × Except PyErr NodeId :=
  bindOp (mkVariable ⟨[]⟩ (.num (.rat 2)) true) fun h0 x =>
  bindOp (mkVariable h0 (.num (.rat 3)) true) fun h1 y =>
  bindOp (Variable.mul h1 x (.node y)) fun h2 xy =>
  bindOp (Variable.pow h2 x (.num (.rat 2))) fun h3 xsq =>
  bindOp (Variable.add h3 xy (.node xsq)) fun h4 lhs =>
  bindOp (Variable.rtruediv h4 y (.rat 1)) fun h5 invy =>
  Variable.sub h5 lhs (.node invy)

/-- The NaN example of §8: `x = Variable(2); f = (-2) ** x` (the base is
promoted by `__rpow__` with `requires_grad=False` as node 1, `f` is node 2). -/
def c5Build : Heap × Except PyErr NodeId :=
  bindOp (mkVariable ⟨[]⟩ (.num (.rat 2)) true) fun h x =>
  Variable.rpow h x (.rat (-2))

/-- Observation of one node: its value and its gradient, as read after a
backward pass that ended in state `r`. -/
def observe (r : Option (Except PyErr Heap)) (i : NodeId) :
    Option (Except PyErr (Option (PyNum × Option PyNum))) :=
  r.map (fun x => x.map (fun h => (h.get? i).map (fun v => (v.value, v.grad))))


/-- `Variable(5, requires_grad=False) + 2`: a binary operation whose second
operand is a raw number and whose first operand does not require grad. -/
def c2Build : Heap × Except PyErr NodeId :=
  bindOp (mkVariable ⟨[]⟩ (.num (.rat 5)) false) fun h x =>
  Variable.add h x (.num (.rat 2))

/-- A single leaf `Variable(5, requires_grad=False)`. -/
def c3Build : Heap × Except PyErr NodeId :=
  mkVariable ⟨[]⟩ (.num (.rat 5)) false

/-- C1, evaluation at the failing input: on the diamond `z = x + x; w = z * z`
with `x.value = 1`, the stack-based `backward()` revisits and re-fires the
shared node `z`, leaving `x.grad == 16` — not `8 * x.value == 8` as the claim
requires.  Holds for every instantiation of the abstracted logarithm. -/
theorem claim1_diamond_backward_eval (lg : ℚ → ℚ) :
    c1Build.2 = .ok 2 ∧
    observe (Variable.backward lg 100 c1Build.1 2) 0
      = some (.ok (some (.rat 1, some (.rat 16)))) ∧
    observe (Variable.backward lg 100 c1Build.1 2) 0
      ≠ some (.ok (some (.rat 1, some (.rat 8)))) := by
  refine ⟨?_, ?_, ?_⟩ <;>
  norm_num [c1Build, bindOp, mkVariable, varInit, checkValue, Heap.push, Heap.size,
    Heap.get?, Heap.setNode, binaryGeneralCalc, binCalcCore, forwardOp, Variable.add,
    Variable.mul, Variable.backward, backwardLoop, applyOp, generalGradCalc, gradStep,
    pyAdd, pyMul, observe, Except.map, List.getElem?_cons_zero, List.getElem?_cons_succ]

/-- C4: gradient accumulation is additive — `_general_grad_calc` increments a
differentiable operand's gradient by `local_partial * result.grad` instead of
overwriting it — and on `x = 2, y = 3, f = x*y + x**2 - 1/y` a backward pass
leaves `x.grad == 7` and `y.grad == 2 + 1/9`, for every instantiation of the
abstracted logarithm. -/
theorem claim4_additive_accumulation (lg : ℚ → ℚ) :
    (∀ (h : Heap) (s t : NodeId) (d : PyNum) (sv tv : Variable) (tg sg : PyNum),
      h.get? s = some sv → h.get? t = some tv → tv.requiresGrad = true →
      tv.grad = some tg → sv.grad = some sg →
      gradStep h s t d = .ok (h.setNode t { tv with grad := some (pyAdd tg (pyMul d sg)) })) ∧
    c4Build.2 = .ok 10 ∧
    observe (Variable.backward lg 200 c4Build.1 10) 0
      = some (.ok (some (.rat 2, some (.rat 7)))) ∧
    observe (Variable.backward lg 200 c4Build.1 10) 1
      = some (.ok (some (.rat 3, some (.rat (2 + 1/9))))) := by
  refine ⟨fun h s t d sv tv tg sg hs ht hrg htg hsg => by
      simp [gradStep, hs, ht, hrg, htg, hsg], ?_, ?_, ?_⟩ <;>
  norm_num [c4Build, bindOp, mkVariable, varInit, checkValue, Heap.push, Heap.size,
    Heap.get?, Heap.setNode, binaryGeneralCalc, binCalcCore, forwardOp, Variable.add,
    Variable.sub, Variable.mul, Variable.pow, Variable.truediv, Variable.rtruediv,
    Variable.backward, backwardLoop, applyOp, generalGradCalc, gradStep, powBackward,
    powGradRight, divBackward, pyAdd, pySub, pyMul, pyNeg, pyDiv, pyPow, PyNum.gtZero,
    observe, Except.map, List.getElem?_cons_zero, List.getElem?_cons_succ]

/-- A two-node arena used to instantiate `claim4_additive_accumulation`:
node 1 (playing the result) holds gradient 3, node 0 (playing the operand)
holds gradient 2. -/
def c4WitnessHeap : Heap :=
  ⟨[{ value := .rat 1, requiresGrad := true, grad := some (.rat 2),
      operation := none, leftNode := none, rightNode := none },
    { value := .rat 1, requiresGrad := true, grad := some (.rat 3),
      operation := none, leftNode := none, rightNode := none }]⟩

/-- Witness for `claim4_additive_accumulation`: accumulating derivative 5 from
node 1 into node 0 adds `5 * 3` on top of the existing gradient 2. -/
theorem claim4_additive_accumulation_witness :
    gradStep c4WitnessHeap 1 0 (.rat 5) =
      .ok (c4WitnessHeap.setNode 0
        { value := .rat 1, requiresGrad := true,
          grad := some (pyAdd (.rat 2) (pyMul (.rat 5) (.rat 3))),
          operation := none, leftNode := none, rightNode := none }) :=
  (claim4_additive_accumulation (fun _ => 0)).1 c4WitnessHeap 1 0 (.rat 5)
    { value := .rat 1, requiresGrad := true, grad := some (.rat 3),
      operation := none, leftNode := none, rightNode := none }
    { value := .rat 1, requiresGrad := true, grad := some (.rat 2),
      operation := none, leftNode := none, rightNode := none }
    (.rat 2) (.rat 3) rfl rfl rfl rfl rfl

/-- C5: the exponent-side derivative of the power operation is NaN whenever the
base is not positive (so `backward()` never fails on the undefined logarithm),
and concretely `x = 2; f = (-2) ** x; f.backward()` leaves `x.grad` NaN — for
every instantiation of the abstracted logarithm. -/
theorem claim5_nonpositive_base_nan (lg : ℚ → ℚ) :
    (∀ lv rv : PyNum, lv.gtZero = false → powGradRight lg lv rv = .ok .nan) ∧
    c5Build.2 = .ok 2 ∧
    observe (Variable.backward lg 100 c5Build.1 2) 0
      = some (.ok (some (.rat 2, some .nan))) := by
  refine ⟨fun lv rv hl => ?_, ?_, ?_⟩
  · cases lv with
    | rat a =>
      simp only [PyNum.gtZero, decide_eq_false_iff_not] at hl
      simp [powGradRight, hl]
    | nan => rfl
  all_goals
  norm_num [c5Build, bindOp, mkVariable, varInit, checkValue, Heap.push, Heap.size,
    Heap.get?, Heap.setNode, binaryGeneralCalc, binCalcCore, forwardOp, Variable.pow,
    Variable.rpow, Variable.backward, backwardLoop, applyOp, generalGradCalc, gradStep,
    powBackward, powGradRight, pyAdd, pySub, pyMul, pyPow, PyNum.gtZero,
    observe, Except.map, List.getElem?_cons_zero, List.getElem?_cons_succ]

/-- Witness for `claim5_nonpositive_base_nan`: at base `-2` (not positive) the
exponent-side derivative is NaN. -/
theorem claim5_nonpositive_base_nan_witness :
    powGradRight (fun _ => 0) (.rat (-2)) (.rat 5) = .ok .nan :=
  (claim5_nonpositive_base_nan (fun _ => 0)).1 (.rat (-2)) (.rat 5)
    (by norm_num [PyNum.gtZero])

/-- C2, counterexample: in `Variable(5, requires_grad=False) + 2` the raw
number 2 is promoted with the constructor default `requires_grad=True` — not
`False` as the claim states — so the result node requires grad and carries a
backward operation even though the `Variable` operand does not require grad. -/
theorem claim2_promotion_counterexample :
    c2Build.2 = .ok 2 ∧
    (c2Build.1.get? 0).map Variable.requiresGrad = some false ∧
    (c2Build.1.get? 1).map Variable.requiresGrad = some true ∧
    (c2Build.1.get? 1).map Variable.requiresGrad ≠ some false ∧
    (c2Build.1.get? 2).map Variable.requiresGrad = some true ∧
    (c2Build.1.get? 2).map Variable.operation = some (some .add) := by
  refine ⟨?_, ?_, ?_, ?_, ?_, ?_⟩ <;>
  norm_num [c2Build, bindOp, mkVariable, varInit, checkValue, Heap.push, Heap.size,
    Heap.get?, binaryGeneralCalc, binCalcCore, forwardOp, Variable.add, pyAdd,
    List.getElem?_cons_zero, List.getElem?_cons_succ]

/-- C3, counterexample: a leaf with `requires_grad=False` has no gradient at
construction, but calling `backward()` on that node itself unconditionally
seeds `self.grad = 1`, so the gradient does not stay absent. -/
theorem claim3_backward_on_self_counterexample :
    c3Build.2 = .ok 0 ∧
    (c3Build.1.get? 0).map Variable.grad = some none ∧
    observe (Variable.backward (fun _ => 0) 10 c3Build.1 0) 0
      = some (.ok (some (.rat 5, some (.rat 1)))) ∧
    observe (Variable.backward (fun _ => 0) 10 c3Build.1 0) 0
      ≠ some (.ok (some (.rat 5, none))) := by
  refine ⟨?_, ?_, ?_, ?_⟩ <;>
  (norm_num [c3Build, mkVariable, varInit, checkValue, Heap.push, Heap.size,
    Heap.get?, Heap.setNode, Variable.backward, backwardLoop, observe, Except.map,
    List.getElem?_cons_zero, List.getElem?_cons_succ]; try simp)

theorem Heap.get?_push_lt (h : Heap) (v : Variable) {j : Nat} (hj : j < h.size) :
    (h.push v).get? j = h.get? j :=
  List.get?_append hj

theorem Heap.get?_push_self (h : Heap) (v : Variable) :
    (h.push v).get? h.size = some v :=
  List.get?_concat_length h.nodes v

theorem Heap.size_push (h : Heap) (v : Variable) : (h.push v).size = h.size + 1 := by
  simp [Heap.push, Heap.size]

theorem Heap.get?_set_ne (h : Heap) (v : Variable) {i j : NodeId} (hij : i ≠ j) :
    (h.setNode i v).get? j = h.get? j :=
  List.get?_set_ne v h.nodes hij

theorem Heap.get?_set_self (h : Heap) (v : Variable) {i : NodeId} (hi : i < h.size) :
    (h.setNode i v).get? i = some v :=
  List.get?_set_eq_of_lt v hi

theorem Heap.size_set (h : Heap) (v : Variable) (i : NodeId) :
    (h.setNode i v).size = h.size := by
  simp [Heap.setNode, Heap.size]

theorem Heap.lt_size_of_get? {h : Heap} {i : NodeId} {v : Variable}
    (hg : h.get? i = some v) : i < h.size := by
  by_contra hlt
  have hnone : h.nodes.get? i = none := List.get?_eq_none.mpr (Nat.le_of_not_lt hlt)
  have : h.nodes.get? i = some v := hg
  rw [hnone] at this
  exact Option.noConfusion this

/-- Characterization of a successful `binCalcCore`: both operands exist, the
forward computation succeeds, and the result node is appended with
`requires_grad` the OR of the operands and the backward rule attached exactly
when it requires grad. -/
theorem binCalcCore_ok {h : Heap} {i j : NodeId} {op : Op} {h' : Heap} {k : NodeId}
    (hres : binCalcCore h i j op = (h', .ok k)) :
    ∃ sv tv v, h.get? i = some sv ∧ h.get? j = some tv ∧
      forwardOp op sv.value tv.value = .ok v ∧ k = h.size ∧
      h' = h.push
        { value := v
          requiresGrad := sv.requiresGrad || tv.requiresGrad
          grad := if sv.requiresGrad || tv.requiresGrad then some (.rat 0) else none
          operation := if sv.requiresGrad || tv.requiresGrad then some op else none
          leftNode := some i
          rightNode := some j } := by
  unfold binCalcCore at hres
  split at hres
  · next sv tv hgi hgj =>
    simp only [varInit, checkValue] at hres
    split at hres
    · simp at hres
    · next v hf =>
      injection hres with h1 h2
      injection h2 with h3
      exact ⟨sv, tv, v, hgi, hgj, hf, h3.symm, h1.symm⟩
  · simp at hres

/-- A failing `binCalcCore` raises before any allocation: the arena it returns
is exactly the one it was given. -/
theorem binCalcCore_error {h : Heap} {i j : NodeId} {op : Op} {h' : Heap} {e : PyErr}
    (hres : binCalcCore h i j op = (h', .error e)) : h' = h := by
  unfold binCalcCore at hres
  split at hres
  · next sv tv hgi hgj =>
    simp only [varInit, checkValue] at hres
    split at hres
    · injection hres with h1 h2
      exact h1.symm
    · simp at hres
  · injection hres with h1 h2
    exact h1.symm

/-- `x = Variable(5); x / 0`: the division-by-zero example. -/
def c6Build : Heap × Except PyErr NodeId :=
  bindOp (mkVariable ⟨[]⟩ (.num (.rat 5)) true) fun h x =>
  Variable.truediv h x (.num (.rat 0))

/-- C6: when a binary operation's forward computation raises, the native error
propagates from construction: `binCalcCore` returns its arena untouched, a
raw-number `_binary_general_calc` leaves every pre-existing node unchanged and
allocates at most the promoted operand leaf (never a result node carrying an
operation or operand references), and concretely `Variable(5) / 0` raises
`ZeroDivisionError` with the pre-existing node unchanged. -/
theorem claim6_native_error_at_construction :
    (∀ (h : Heap) (i j : NodeId) (op : Op) (h' : Heap) (e : PyErr),
      binCalcCore h i j op = (h', .error e) → h' = h) ∧
    (∀ (h : Heap) (i : NodeId) (x : PyNum) (op : Op) (h' : Heap) (e : PyErr),
      binaryGeneralCalc h i (.num x) op = (h', .error e) →
      (∀ j, j < h.size → h'.get? j = h.get? j) ∧
      (∀ j v, h.size ≤ j → h'.get? j = some v →
        v.operation = none ∧ v.leftNode = none ∧ v.rightNode = none)) ∧
    c6Build.2 = .error .zeroDivisionError ∧
    c6Build.1.get? 0 = (mkVariable ⟨[]⟩ (.num (.rat 5)) true).1.get? 0 := by
  refine ⟨fun h i j op h' e hres => binCalcCore_error hres, ?_, ?_, ?_⟩
  · intro h i x op h' e hres
    simp only [binaryGeneralCalc, varInit, checkValue] at hres
    have hE := binCalcCore_error hres
    subst hE
    constructor
    · intro j hj
      exact Heap.get?_push_lt _ _ hj
    · intro j v hge hsome
      rcases Nat.eq_or_lt_of_le hge with heq | hlt
      · subst heq
        rw [Heap.get?_push_self] at hsome
        injection hsome with hv
        subst hv
        exact ⟨rfl, rfl, rfl⟩
      · exfalso
        have hj2 := Heap.lt_size_of_get? hsome
        rw [Heap.size_push] at hj2
        exact absurd hlt (Nat.not_lt.mpr (Nat.le_of_lt_succ hj2))
  all_goals
    norm_num [c6Build, bindOp, mkVariable, varInit, checkValue, Heap.push, Heap.size,
      Heap.get?, binaryGeneralCalc, binCalcCore, forwardOp, Variable.truediv, pyDiv,
      List.getElem?_cons_zero, List.getElem?_cons_succ]

/-- Witness for `claim6_native_error_at_construction`: in `Variable(5) / 0` the
pre-existing node 0 is unchanged across the raising operation. -/
theorem claim6_native_error_at_construction_witness :
    c6Build.1.get? 0 = (mkVariable ⟨[]⟩ (.num (.rat 5)) true).1.get? 0 :=
  (claim6_native_error_at_construction.2.1
      (mkVariable ⟨[]⟩ (.num (.rat 5)) true).1 0 (.rat 0) .div
      c6Build.1 .zeroDivisionError
      (by norm_num [c6Build, bindOp, mkVariable, varInit, checkValue, Heap.push,
        Heap.size, Heap.get?, binaryGeneralCalc, binCalcCore, forwardOp,
        Variable.truediv, pyDiv, List.getElem?_cons_zero, List.getElem?_cons_succ])).1
    0 (by norm_num [mkVariable, varInit, checkValue, Heap.push, Heap.size])

/-- C7: leaf construction raises `ValueError` ("Numeric data is expected") on
every non-numeric value — e.g. a string — leaving the arena untouched, and
succeeds on every number, allocating a leaf with no operation and no
operands. -/
theorem claim7_leaf_construction :
    (∀ (h : Heap) (obj : PyObject) (rg : Bool), (∀ x, obj ≠ .num x) →
      mkVariable h obj rg = (h, .error .valueError)) ∧
    (∀ (h : Heap) (x : PyNum) (rg : Bool),
      mkVariable h (.num x) rg =
        (h.push { value := x, requiresGrad := rg,
                  grad := if rg then some (.rat 0) else none,
                  operation := none, leftNode := none, rightNode := none },
         .ok h.size)) := by
  constructor
  · intro h obj rg hne
    cases obj with
    | num x => exact absurd rfl (hne x)
    | str s => rfl
    | none_ => rfl
  · intro h x rg
    rfl

/-- Witness for `claim7_leaf_construction`: a string raises, a number
succeeds. -/
theorem claim7_leaf_construction_witness :
    mkVariable ⟨[]⟩ (.str "a") true = (⟨[]⟩, .error .valueError) ∧
    mkVariable ⟨[]⟩ (.num (.rat 5)) true =
      (Heap.push ⟨[]⟩ { value := .rat 5, requiresGrad := true,
                        grad := if true then some (.rat 0) else none,
                        operation := none, leftNode := none, rightNode := none },
       .ok 0) :=
  ⟨claim7_leaf_construction.1 ⟨[]⟩ (.str "a") true (fun x => by simp),
   claim7_leaf_construction.2 ⟨[]⟩ (.rat 5) true⟩

/-- C8: `zero_grad()` on a node that requires grad resets its gradient to 0
regardless of its prior value; on a node that does not require grad it is a
no-op; it is idempotent; and it never touches any other node. -/
theorem claim8_zero_grad :
    (∀ (h : Heap) (i : NodeId) (v : Variable), h.get? i = some v →
      v.requiresGrad = true →
      Variable.zeroGrad h i = h.setNode i { v with grad := some (.rat 0) }) ∧
    (∀ (h : Heap) (i : NodeId) (v : Variable), h.get? i = some v →
      v.requiresGrad = false → Variable.zeroGrad h i = h) ∧
    (∀ (h : Heap) (i : NodeId),
      Variable.zeroGrad (Variable.zeroGrad h i) i = Variable.zeroGrad h i) ∧
    (∀ (h : Heap) (i j : NodeId), j ≠ i →
      (Variable.zeroGrad h i).get? j = h.get? j) := by
  refine ⟨?_, ?_, ?_, ?_⟩
  · intro h i v hg hrg
    simp [Variable.zeroGrad, hg, hrg]
  · intro h i v hg hrg
    simp [Variable.zeroGrad, hg, hrg]
  · intro h i
    cases hg : h.get? i with
    | none => simp [Variable.zeroGrad, hg]
    | some v =>
      by_cases hrg : v.requiresGrad
      · have hi : i < h.size := Heap.lt_size_of_get? hg
        have hw : Variable.zeroGrad h i = h.setNode i { v with grad := some (.rat 0) } := by
          simp [Variable.zeroGrad, hg, hrg]
        rw [hw]
        have hset : (h.setNode i { v with grad := some (.rat 0) }).get? i
            = some { v with grad := some (.rat 0) } :=
          Heap.get?_set_self h _ hi
        simp only [Variable.zeroGrad]
        rw [hset]
        simp [hrg, Heap.setNode, List.set_set]
      · simp [Variable.zeroGrad, hg, hrg]
  · intro h i j hji
    cases hg : h.get? i with
    | none => simp [Variable.zeroGrad, hg]
    | some v =>
      by_cases hrg : v.requiresGrad
      · simp only [Variable.zeroGrad, hg, hrg, if_true]
        exact Heap.get?_set_ne h _ (fun hij => hji hij.symm)
      · simp [Variable.zeroGrad, hg, hrg]

/-- A two-node arena used to instantiate `claim8_zero_grad`: node 0 requires
grad and holds gradient 9, node 1 does not require grad. -/
def c8WitnessHeap : Heap :=
  ⟨[{ value := .rat 1, requiresGrad := true, grad := some (.rat 9),
      operation := none, leftNode := none, rightNode := none },
    { value := .rat 2, requiresGrad := false, grad := none,
      operation := none, leftNode := none, rightNode := none }]⟩

/-- Witness for `claim8_zero_grad` at a concrete two-node arena. -/
theorem claim8_zero_grad_witness :
    Variable.zeroGrad c8WitnessHeap 0 =
      c8WitnessHeap.setNode 0 ({ value := .rat 1, requiresGrad := true,
                                 grad := some (.rat 0), operation := none,
                                 leftNode := none, rightNode := none }) ∧
    Variable.zeroGrad c8WitnessHeap 1 = c8WitnessHeap ∧
    Variable.zeroGrad (Variable.zeroGrad c8WitnessHeap 0) 0
      = Variable.zeroGrad c8WitnessHeap 0 ∧
    (Variable.zeroGrad c8WitnessHeap 0).get? 1 = c8WitnessHeap.get? 1 :=
  ⟨claim8_zero_grad.1 c8WitnessHeap 0
      { value := .rat 1, requiresGrad := true, grad := some (.rat 9),
        operation := none, leftNode := none, rightNode := none } rfl rfl,
   claim8_zero_grad.2.1 c8WitnessHeap 1
      { value := .rat 2, requiresGrad := false, grad := none,
        operation := none, leftNode := none, rightNode := none } rfl rfl,
   claim8_zero_grad.2.2.1 c8WitnessHeap 0,
   claim8_zero_grad.2.2.2 c8WitnessHeap 0 1 (by decide)⟩

theorem pyAdd_comm (a b : PyNum) : pyAdd a b = pyAdd b a := by
  cases a <;> cases b <;> simp [pyAdd, add_comm]

theorem pyMul_comm (a b : PyNum) : pyMul a b = pyMul b a := by
  cases a <;> cases b <;> simp [pyMul, mul_comm]

/-- `-a + c = c - a`, the identity behind `__rsub__`, lifted to `PyNum` with
its NaN propagation. -/
theorem pyAdd_mul_negOne (a c : PyNum) : pyAdd (pyMul a (.rat (-1))) c = pySub c a := by
  cases a <;> cases c <;> (simp [pyAdd, pyMul, pySub]; try ring)

/-- `a ** -1` succeeds on every nonzero number and multiplying the result by
`c` is division `c / a`, the identity behind `__rtruediv__`. -/
theorem pyPow_negOne {a : PyNum} (ha : a ≠ .rat 0) :
    ∃ p, pyPow a (.rat (-1)) = .ok p ∧ ∀ c, pyDiv c a = .ok (pyMul p c) := by
  cases a with
  | nan =>
    refine ⟨.nan, by norm_num [pyPow], fun c => ?_⟩
    cases c <;> simp [pyDiv, pyMul]
  | rat q =>
    have hq : q ≠ 0 := fun hq0 => ha (congrArg PyNum.rat hq0)
    refine ⟨.rat q⁻¹, ?_, ?_⟩
    · norm_num [pyPow, hq]
    · intro c
      cases c with
      | rat c' =>
        simp [pyDiv, pyMul, hq, div_eq_mul_inv, mul_comm]
      | nan => simp [pyDiv, pyMul, hq]

/-- Equation form of a successful `binCalcCore` at resolved operands. -/
theorem binCalcCore_eq_of {h : Heap} {i j : NodeId} {sv tv : Variable} {op : Op}
    {w : PyNum} (hgi : h.get? i = some sv) (hgj : h.get? j = some tv)
    (hf : forwardOp op sv.value tv.value = .ok w) :
    binCalcCore h i j op =
      (h.push { value := w, requiresGrad := sv.requiresGrad || tv.requiresGrad,
                grad := if sv.requiresGrad || tv.requiresGrad then some (.rat 0) else none,
                operation := if sv.requiresGrad || tv.requiresGrad then some op else none,
                leftNode := some i, rightNode := some j },
       .ok h.size) := by
  simp only [binCalcCore, hgi, hgj, hf, varInit, checkValue]

/-- Equation form of a raw-number binary operation on a valid node: the number
is promoted (with `requires_grad=True`), the result node is appended after it
and always requires grad. -/
theorem binNum_ok {h : Heap} {i : NodeId} {v : Variable} {x w : PyNum} {op : Op}
    (hg : h.get? i = some v) (hf : forwardOp op v.value x = .ok w) :
    binaryGeneralCalc h i (.num x) op =
      ((h.push { value := x, requiresGrad := true, grad := some (.rat 0),
                 operation := none, leftNode := none, rightNode := none }).push
        { value := w, requiresGrad := true, grad := some (.rat 0),
          operation := some op, leftNode := some i, rightNode := some h.size },
       .ok (h.size + 1)) := by
  have hi := Heap.lt_size_of_get? hg
  have h1 : (h.push { value := x, requiresGrad := true, grad := some (.rat 0),
                      operation := none, leftNode := none,
                      rightNode := none }).get? i = some v := by
    rw [Heap.get?_push_lt _ _ hi]; exact hg
  have h2 := Heap.get?_push_self h
    { value := x, requiresGrad := true, grad := some (.rat 0),
      operation := none, leftNode := none, rightNode := none }
  have hcore := binCalcCore_eq_of h1 h2 hf
  simp only [binaryGeneralCalc, varInit, checkValue, if_true]
  rw [hcore]
  simp [Bool.or_true, Heap.size_push]

/-- The forward value stored in the node produced by a construction step, when
the step succeeded and the node exists. -/
def resultValue? (r : Heap × Except PyErr NodeId) : Option PyNum :=
  match r with
  | (h, .ok i) =>
    match h.get? i with
    | some v => some v.value
    | none => none
  | (_, .error _) => none

theorem resultValue?_binNum {h : Heap} {i : NodeId} {v : Variable} {x w : PyNum}
    {op : Op} (hg : h.get? i = some v) (hf : forwardOp op v.value x = .ok w) :
    resultValue? (binaryGeneralCalc h i (.num x) op) = some w := by
  rw [binNum_ok hg hf]
  have hr := Heap.get?_push_self
    (h.push { value := x, requiresGrad := true, grad := some (.rat 0),
              operation := none, leftNode := none, rightNode := none })
    { value := w, requiresGrad := true, grad := some (.rat 0),
      operation := some op, leftNode := some i, rightNode := some h.size }
  rw [Heap.size_push] at hr
  simp [resultValue?, hr]

/-- C2 (amended): a raw-number operand of `_binary_general_calc` is promoted to
a leaf with the constructor default `requires_grad=True` (so the result node of
a successful raw-number operation always requires grad and always carries the
backward rule); only `__rpow__` promotes its number with `requires_grad=False`;
and a result node's `requires_grad` is the OR of its operands'. -/
theorem claim2_promotion_requires_grad :
    (∀ (h : Heap) (i : NodeId) (x : PyNum) (op : Op),
      ((binaryGeneralCalc h i (.num x) op).1).get? h.size =
        some { value := x, requiresGrad := true, grad := some (.rat 0),
               operation := none, leftNode := none, rightNode := none }) ∧
    (∀ (h : Heap) (i : NodeId) (x : PyNum) (op : Op) (h' : Heap) (k : NodeId),
      binaryGeneralCalc h i (.num x) op = (h', .ok k) →
      ∃ rv, h'.get? k = some rv ∧ rv.requiresGrad = true ∧ rv.operation = some op) ∧
    (∀ (h : Heap) (i : NodeId) (x : PyNum),
      ((Variable.rpow h i x).1).get? h.size =
        some { value := x, requiresGrad := false, grad := none,
               operation := none, leftNode := none, rightNode := none }) ∧
    (∀ (h : Heap) (i j : NodeId) (op : Op) (h' : Heap) (k : NodeId) (sv tv rv : Variable),
      binCalcCore h i j op = (h', .ok k) → h.get? i = some sv → h.get? j = some tv →
      h'.get? k = some rv → rv.requiresGrad = (sv.requiresGrad || tv.requiresGrad)) := by
  refine ⟨?_, ?_, ?_, ?_⟩
  · intro h i x op
    simp only [binaryGeneralCalc, varInit, checkValue, if_true]
    rcases hres : binCalcCore (h.push { value := x, requiresGrad := true,
                                        grad := some (.rat 0), operation := none,
                                        leftNode := none,
                                        rightNode := none }) i h.size op with ⟨h2, r⟩
    cases r with
    | error e =>
      rw [binCalcCore_error hres]
      exact Heap.get?_push_self h _
    | ok k =>
      obtain ⟨sv, tv, w, _, _, _, _, hH⟩ := binCalcCore_ok hres
      rw [hH, Heap.get?_push_lt]
      · exact Heap.get?_push_self h _
      · rw [Heap.size_push]
        exact Nat.lt_succ_self _
  · intro h i x op h' k hres
    simp only [binaryGeneralCalc, varInit, checkValue, if_true] at hres
    obtain ⟨sv, tv, w, hgi, hgj, hf, hk, hH⟩ := binCalcCore_ok hres
    have htv : tv = { value := x, requiresGrad := true, grad := some (.rat 0),
                      operation := none, leftNode := none, rightNode := none } := by
      rw [Heap.get?_push_self] at hgj
      exact (Option.some.inj hgj).symm
    subst hH hk
    refine ⟨_, Heap.get?_push_self _ _, ?_, ?_⟩ <;>
      simp [htv, Bool.or_true]
  · intro h i x
    simp only [Variable.rpow, varInit, checkValue, Bool.false_eq_true, if_false]
    simp only [Variable.pow, binaryGeneralCalc]
    rcases hres : binCalcCore (h.push { value := x, requiresGrad := false,
                                        grad := none, operation := none,
                                        leftNode := none,
                                        rightNode := none }) h.size i .pow with ⟨h2, r⟩
    cases r with
    | error e =>
      rw [binCalcCore_error hres]
      exact Heap.get?_push_self h _
    | ok k =>
      obtain ⟨sv, tv, w, _, _, _, _, hH⟩ := binCalcCore_ok hres
      rw [hH, Heap.get?_push_lt]
      · exact Heap.get?_push_self h _
      · rw [Heap.size_push]
        exact Nat.lt_succ_self _
  · intro h i j op h' k sv tv rv hres hgi hgj hgr
    obtain ⟨sv', tv', w, hgi', hgj', hf, hk, hH⟩ := binCalcCore_ok hres
    rw [hgi] at hgi'
    rw [hgj] at hgj'
    obtain rfl := Option.some.inj hgi'
    obtain rfl := Option.some.inj hgj'
    subst hH hk
    rw [Heap.get?_push_self] at hgr
    obtain rfl := Option.some.inj hgr
    rfl

/-- Witness for `claim2_promotion_requires_grad`: the result of
`Variable(5, requires_grad=False) + 2` requires grad and carries the addition
backward rule. -/
theorem claim2_promotion_requires_grad_witness :
    ∃ rv, c2Build.1.get? 2 = some rv ∧ rv.requiresGrad = true ∧
      rv.operation = some Op.add :=
  claim2_promotion_requires_grad.2.1 (mkVariable ⟨[]⟩ (.num (.rat 5)) false).1
    0 (.rat 2) .add c2Build.1 2 rfl

theorem Heap.get?_push_push_self (h : Heap) (a b : Variable) :
    ((h.push a).push b).get? (h.size + 1) = some b := by
  have := Heap.get?_push_self (h.push a) b
  rwa [Heap.size_push] at this

/-- C9: each reversed operand order is value-equivalent to the native
operation on the raw values, even though the source delegates (`c - x` as
`-x + c`, `c / x` as `x ** -1 * c`, `c ** x` through an explicit constant
node). -/
theorem claim9_reversed_operations_values :
    (∀ (h : Heap) (i : NodeId) (v : Variable) (c : PyNum), h.get? i = some v →
      resultValue? (Variable.radd h i c) = some (pyAdd c v.value)) ∧
    (∀ (h : Heap) (i : NodeId) (v : Variable) (c : PyNum), h.get? i = some v →
      resultValue? (Variable.rsub h i c) = some (pySub c v.value)) ∧
    (∀ (h : Heap) (i : NodeId) (v : Variable) (c : PyNum), h.get? i = some v →
      resultValue? (Variable.rmul h i c) = some (pyMul c v.value)) ∧
    (∀ (h : Heap) (i : NodeId) (v : Variable) (c : PyNum), h.get? i = some v →
      v.value ≠ .rat 0 →
      ∃ w, pyDiv c v.value = .ok w ∧
        resultValue? (Variable.rtruediv h i c) = some w) ∧
    (∀ (h : Heap) (i : NodeId) (v : Variable) (c w : PyNum), h.get? i = some v →
      pyPow c v.value = .ok w →
      resultValue? (Variable.rpow h i c) = some w) := by
  refine ⟨?_, ?_, ?_, ?_, ?_⟩
  · intro h i v c hg
    rw [pyAdd_comm c v.value]
    simp only [Variable.radd, Variable.add]
    exact resultValue?_binNum hg rfl
  · intro h i v c hg
    have e1 := binNum_ok hg
      (show forwardOp .mul v.value (.rat (-1)) = .ok (pyMul v.value (.rat (-1))) from rfl)
    simp only [Variable.rsub, Variable.neg, Variable.mul, e1]
    rw [← pyAdd_mul_negOne v.value c]
    simp only [Variable.add]
    exact resultValue?_binNum (Heap.get?_push_push_self h _ _) rfl
  · intro h i v c hg
    rw [pyMul_comm c v.value]
    simp only [Variable.rmul, Variable.mul]
    exact resultValue?_binNum hg rfl
  · intro h i v c hg hne
    obtain ⟨p, hp, hdiv⟩ := pyPow_negOne hne
    refine ⟨pyMul p c, hdiv c, ?_⟩
    have e1 := binNum_ok hg (show forwardOp .pow v.value (.rat (-1)) = .ok p from hp)
    simp only [Variable.rtruediv, Variable.pow, e1, Variable.mul]
    exact resultValue?_binNum (Heap.get?_push_push_self h _ _) rfl
  · intro h i v c w hg hPow
    have hq := Heap.get?_push_self h
      { value := c, requiresGrad := false, grad := none,
        operation := none, leftNode := none, rightNode := none }
    have hi := Heap.lt_size_of_get? hg
    have hv' : (h.push { value := c, requiresGrad := false, grad := none,
                         operation := none, leftNode := none,
                         rightNode := none }).get? i = some v := by
      rw [Heap.get?_push_lt _ _ hi]; exact hg
    have hcore := binCalcCore_eq_of hq hv'
      (show forwardOp .pow _ v.value = .ok w from hPow)
    simp only [Variable.rpow, varInit, checkValue, Bool.false_eq_true, if_false]
    simp only [Variable.pow, binaryGeneralCalc]
    rw [hcore]
    simp [resultValue?, Heap.get?_push_self]

/-- A one-node arena with `x.value = 2` used to instantiate
`claim9_reversed_operations_values`. -/
def c9WitnessHeap : Heap :=
  ⟨[{ value := .rat 2, requiresGrad := true, grad := some (.rat 0),
      operation := none, leftNode := none, rightNode := none }]⟩

/-- Witness for `claim9_reversed_operations_values` at `x.value = 2`,
`c = 3`. -/
theorem claim9_reversed_operations_values_witness :
    resultValue? (Variable.radd c9WitnessHeap 0 (.rat 3))
      = some (pyAdd (.rat 3) (.rat 2)) ∧
    resultValue? (Variable.rsub c9WitnessHeap 0 (.rat 3))
      = some (pySub (.rat 3) (.rat 2)) ∧
    resultValue? (Variable.rmul c9WitnessHeap 0 (.rat 3))
      = some (pyMul (.rat 3) (.rat 2)) ∧
    (∃ w, pyDiv (.rat 3) (.rat 2) = .ok w ∧
      resultValue? (Variable.rtruediv c9WitnessHeap 0 (.rat 3)) = some w) ∧
    resultValue? (Variable.rpow c9WitnessHeap 0 (.rat 3)) = some (.rat 9) :=
  ⟨claim9_reversed_operations_values.1 c9WitnessHeap 0 _ (.rat 3) rfl,
   claim9_reversed_operations_values.2.1 c9WitnessHeap 0 _ (.rat 3) rfl,
   claim9_reversed_operations_values.2.2.1 c9WitnessHeap 0 _ (.rat 3) rfl,
   claim9_reversed_operations_values.2.2.2.1 c9WitnessHeap 0 _ (.rat 3) rfl
     (by norm_num [PyNum.rat.injEq]),
   claim9_reversed_operations_values.2.2.2.2 c9WitnessHeap 0 _ (.rat 3) (.rat 9) rfl
     (by norm_num [pyPow])⟩

/-- The operand references of a node — the only structure the backward
traversal reads to schedule work. -/
def Variable.shape (v : Variable) : Option NodeId × Option NodeId :=
  (v.leftNode, v.rightNode)

/-- Overwriting one node's gradient preserves every node's shape, and leaves
every `requires_grad=False` node untouched whenever the overwritten node
requires grad. -/
theorem setNode_grad_props {h : Heap} {t : NodeId} {tv : Variable} (g : Option PyNum)
    (hgt : h.get? t = some tv) :
    (∀ j, ((h.setNode t { tv with grad := g }).get? j).map Variable.shape
        = (h.get? j).map Variable.shape) ∧
    (tv.requiresGrad = true →
      ∀ j u, h.get? j = some u → u.requiresGrad = false →
        (h.setNode t { tv with grad := g }).get? j = some u) := by
  constructor
  · intro j
    by_cases hjt : j = t
    · subst hjt
      rw [Heap.get?_set_self h _ (Heap.lt_size_of_get? hgt), hgt]
      rfl
    · rw [Heap.get?_set_ne h _ (fun hh => hjt hh.symm)]
  · intro htv j u hj hu
    by_cases hjt : j = t
    · subst hjt
      obtain rfl : tv = u := Option.some.inj (hgt.symm.trans hj)
      exact absurd (htv.symm.trans hu) (by simp)
    · rw [Heap.get?_set_ne h _ (fun hh => hjt hh.symm)]
      exact hj

/-- A successful `gradStep` preserves every node's shape and every
`requires_grad=False` node verbatim. -/
theorem gradStep_props {h : Heap} {s t : NodeId} {d : PyNum} {h' : Heap}
    (hres : gradStep h s t d = .ok h') :
    (∀ j, (h'.get? j).map Variable.shape = (h.get? j).map Variable.shape) ∧
    (∀ j u, h.get? j = some u → u.requiresGrad = false → h'.get? j = some u) := by
  unfold gradStep at hres
  split at hres
  · next tv sv hgt hgs =>
    split at hres
    · next htv =>
      split at hres
      · next tg sg htg hsg =>
        obtain rfl := Except.ok.inj hres
        exact ⟨(setNode_grad_props _ hgt).1,
               fun j u hj hu => (setNode_grad_props _ hgt).2 htv j u hj hu⟩
      · exact Except.noConfusion hres
    · obtain rfl := Except.ok.inj hres
      exact ⟨fun j => rfl, fun j u hj _ => hj⟩
  · exact Except.noConfusion hres

/-- A successful `_general_grad_calc` preserves every node's shape and every
`requires_grad=False` node verbatim. -/
theorem generalGradCalc_props {h : Heap} {s : NodeId} {dl dr : PyNum} {h' : Heap}
    (hres : generalGradCalc h s dl dr = .ok h') :
    (∀ j, (h'.get? j).map Variable.shape = (h.get? j).map Variable.shape) ∧
    (∀ j u, h.get? j = some u → u.requiresGrad = false → h'.get? j = some u) := by
  unfold generalGradCalc at hres
  split at hres
  · exact Except.noConfusion hres
  · next sv hgs =>
    split at hres
    · exact Except.noConfusion hres
    · next li hl =>
      split at hres
      · exact Except.noConfusion hres
      · next h1 hg1 =>
        obtain ⟨hs1, hf1⟩ := gradStep_props hg1
        split at hres
        · obtain rfl := Except.ok.inj hres
          exact ⟨hs1, hf1⟩
        · next ri hr =>
          obtain ⟨hs2, hf2⟩ := gradStep_props hres
          exact ⟨fun j => (hs2 j).trans (hs1 j),
                 fun j u hj hu => hf2 j u (hf1 j u hj hu) hu⟩

/-- A successful backward rule (`curr._operation(curr)`) preserves every
node's shape and every `requires_grad=False` node verbatim. -/
theorem applyOp_props {lg : ℚ → ℚ} {h : Heap} {i : NodeId} {op : Op} {h' : Heap}
    (hres : applyOp lg h i op = .ok h') :
    (∀ j, (h'.get? j).map Variable.shape = (h.get? j).map Variable.shape) ∧
    (∀ j u, h.get? j = some u → u.requiresGrad = false → h'.get? j = some u) := by
  cases op with
  | add => exact generalGradCalc_props hres
  | sub => exact generalGradCalc_props hres
  | mul =>
    simp only [applyOp] at hres
    split at hres
    · exact Except.noConfusion hres
    · next sv hgs =>
      split at hres
      · next lv rv hlv hrv => exact generalGradCalc_props hres
      · exact Except.noConfusion hres
  | pow =>
    simp only [applyOp] at hres
    unfold powBackward at hres
    split at hres
    · exact Except.noConfusion hres
    · next sv hgs =>
      split at hres
      · next lv rv hlv hrv =>
        split at hres
        · exact Except.noConfusion hres
        · next base hbase =>
          split at hres
          · exact Except.noConfusion hres
          · next dr hdr => exact generalGradCalc_props hres
      · exact Except.noConfusion hres
  | div =>
    simp only [applyOp] at hres
    unfold divBackward at hres
    split at hres
    · exact Except.noConfusion hres
    · next sv hgs =>
      split at hres
      · next lv rv hlv hrv =>
        split at hres
        · exact Except.noConfusion hres
        · next dl hdl =>
          split at hres
          · exact Except.noConfusion hres
          · next d2 hd2 =>
            split at hres
            · exact Except.noConfusion hres
            · next dr hdr => exact generalGradCalc_props hres
      · exact Except.noConfusion hres

/-- A backward-loop run that finishes successfully preserves every node's
shape and every `requires_grad=False` node verbatim. -/
theorem backwardLoop_props (lg : ℚ → ℚ) :
    ∀ (fuel : Nat) (h : Heap) (s : List (Option NodeId)) (h' : Heap),
      backwardLoop lg fuel h s = some (.ok h') →
      (∀ j, (h'.get? j).map Variable.shape = (h.get? j).map Variable.shape) ∧
      (∀ j u, h.get? j = some u → u.requiresGrad = false → h'.get? j = some u) := by
  intro fuel
  induction fuel with
  | zero => intro h s h' hres; exact Option.noConfusion hres
  | succ n ih =>
    intro h s h' hres
    cases s with
    | nil =>
      simp only [backwardLoop] at hres
      obtain rfl : h = h' := Except.ok.inj (Option.some.inj hres)
      exact ⟨fun j => rfl, fun j u hj _ => hj⟩
    | cons e rest =>
      cases e with
      | none =>
        simp only [backwardLoop] at hres
        exact ih h rest h' hres
      | some i =>
        simp only [backwardLoop] at hres
        split at hres
        · simp at hres
        · next v hgi =>
          split at hres
          · next hrg =>
            split at hres
            · next op hop =>
              split at hres
              · simp at hres
              · next h2 hap =>
                obtain ⟨hs2, hf2⟩ := ih h2 _ h' hres
                obtain ⟨hs1, hf1⟩ := applyOp_props hap
                exact ⟨fun j => (hs2 j).trans (hs1 j),
                       fun j u hj hu => hf2 j u (hf1 j u hj hu) hu⟩
            · exact ih h rest h' hres
          · exact ih h rest h' hres

/-- C3 (amended): a node constructed with `requires_grad=False` starts with no
gradient; arithmetic operations never mutate pre-existing nodes at all; and a
`backward()` call on any *other* node leaves every `requires_grad=False` node
verbatim (gradient included).  The one exception — forced by the
counterexample — is `backward()` invoked on the node itself, which seeds its
`grad` to 1 unconditionally. -/
theorem claim3_requires_grad_false_grad_absent (lg : ℚ → ℚ) :
    (∀ (h : Heap) (x : PyNum),
      ((mkVariable h (.num x) false).1).get? h.size =
        some { value := x, requiresGrad := false, grad := none,
               operation := none, leftNode := none, rightNode := none }) ∧
    (∀ (h : Heap) (i : NodeId) (sec : Operand) (op : Op) (j : NodeId), j < h.size →
      ((binaryGeneralCalc h i sec op).1).get? j = h.get? j) ∧
    (∀ (fuel : Nat) (h : Heap) (r : NodeId) (h' : Heap) (j : NodeId) (u : Variable),
      Variable.backward lg fuel h r = some (.ok h') → j ≠ r →
      h.get? j = some u → u.requiresGrad = false → h'.get? j = some u) := by
  refine ⟨?_, ?_, ?_⟩
  · intro h x
    exact Heap.get?_push_self h _
  · intro h i sec op j hj
    cases sec with
    | node k =>
      simp only [binaryGeneralCalc]
      rcases hres : binCalcCore h i k op with ⟨h2, r⟩
      cases r with
      | error e => rw [binCalcCore_error hres]
      | ok m =>
        obtain ⟨sv, tv, w, _, _, _, _, hH⟩ := binCalcCore_ok hres
        rw [hH, Heap.get?_push_lt _ _ hj]
    | num x =>
      simp only [binaryGeneralCalc, varInit, checkValue, if_true]
      rcases hres : binCalcCore (h.push { value := x, requiresGrad := true,
                                          grad := some (.rat 0), operation := none,
                                          leftNode := none,
                                          rightNode := none }) i h.size op
        with ⟨h2, r⟩
      have hj1 : j < (h.push { value := x, requiresGrad := true,
                               grad := some (.rat 0), operation := none,
                               leftNode := none, rightNode := none }).size := by
        rw [Heap.size_push]
        exact Nat.lt_succ_of_lt hj
      cases r with
      | error e =>
        rw [binCalcCore_error hres, Heap.get?_push_lt _ _ hj]
      | ok m =>
        obtain ⟨sv, tv, w, _, _, _, _, hH⟩ := binCalcCore_ok hres
        rw [hH, Heap.get?_push_lt _ _ hj1, Heap.get?_push_lt _ _ hj]
  · intro fuel h r h' j u hb hjr hj hu
    unfold Variable.backward at hb
    split at hb
    · simp at hb
    · next v hgr =>
      have hf := (backwardLoop_props lg fuel _ _ h' hb).2
      have hj1 : (h.setNode r { v with grad := some (.rat 1) }).get? j = some u := by
        rw [Heap.get?_set_ne h _ (fun hh => hjr hh.symm)]
        exact hj
      exact hf j u hj1 hu

/-- A two-node arena used to instantiate
`claim3_requires_grad_false_grad_absent`: node 0 does not require grad (and
has no gradient), node 1 does. -/
def c3WitnessHeap : Heap :=
  ⟨[{ value := .rat 5, requiresGrad := false, grad := none,
      operation := none, leftNode := none, rightNode := none },
    { value := .rat 7, requiresGrad := true, grad := some (.rat 0),
      operation := none, leftNode := none, rightNode := none }]⟩

/-- Witness for `claim3_requires_grad_false_grad_absent`: after `backward()`
on node 1, the `requires_grad=False` node 0 still has no gradient. -/
theorem claim3_requires_grad_false_grad_absent_witness :
    ∃ h', Variable.backward (fun _ => (0 : ℚ)) 5 c3WitnessHeap 1 = some (.ok h') ∧
      h'.get? 0 = some { value := .rat 5, requiresGrad := false, grad := none,
                         operation := none, leftNode := none, rightNode := none } :=
  ⟨_, rfl,
   (claim3_requires_grad_false_grad_absent (fun _ => (0 : ℚ))).2.2 5 c3WitnessHeap 1 _ 0
     { value := .rat 5, requiresGrad := false, grad := none,
       operation := none, leftNode := none, rightNode := none }
     rfl (by decide) rfl rfl⟩

theorem childrenBelow_of_shape {u v : Variable} {i : Nat} (hsh : u.shape = v.shape) :
    u.childrenBelow i = v.childrenBelow i := by
  unfold Variable.shape at hsh
  injection hsh with hl hr
  unfold Variable.childrenBelow
  rw [hl, hr]

/-- Well-formedness of the arena follows any shape-preserving mutation. -/
theorem wf_of_shape {h h' : Heap}
    (hs : ∀ j, (h'.get? j).map Variable.shape = (h.get? j).map Variable.shape)
    (hwf : Heap.WFp h) : Heap.WFp h' := by
  intro i v' hg'
  have hsi := hs i
  rw [hg'] at hsi
  cases hg : h.get? i with
  | none =>
    rw [hg] at hsi
    simp at hsi
  | some v =>
    rw [hg] at hsi
    simp only [Option.map_some'] at hsi
    rw [childrenBelow_of_shape (Option.some.inj hsi)]
    exact hwf i v hg

theorem wfAux_iff : ∀ (l : List Variable) (n : Nat),
    wfAux n l = true ↔ ∀ i v, l.get? i = some v → v.childrenBelow (n + i) = true := by
  intro l
  induction l with
  | nil =>
    intro n
    simp [wfAux, List.get?]
  | cons v rest ih =>
    intro n
    simp only [wfAux, Bool.and_eq_true, ih (n + 1)]
    constructor
    · rintro ⟨h1, h2⟩ i u hget
      cases i with
      | zero =>
        obtain rfl : v = u := Option.some.inj hget
        simpa using h1
      | succ i =>
        have := h2 i u hget
        rwa [show n + 1 + i = n + (i + 1) from by omega] at this
    · intro hall
      refine ⟨by simpa using hall 0 v rfl, ?_⟩
      intro i u hget
      have := hall (i + 1) u hget
      rwa [show n + (i + 1) = n + 1 + i from by omega] at this

theorem Heap.wfB_iff (h : Heap) : h.wfB = true ↔ Heap.WFp h := by
  unfold Heap.wfB Heap.WFp Heap.get?
  simpa using wfAux_iff h.nodes 0

theorem childrenBelow_split {v : Variable} {i : Nat} (hcb : v.childrenBelow i = true) :
    (∀ x ∈ v.leftNode, x < i) ∧ (∀ x ∈ v.rightNode, x < i) := by
  unfold Variable.childrenBelow at hcb
  rw [Bool.and_eq_true] at hcb
  obtain ⟨h1, h2⟩ := hcb
  constructor
  · intro x hx
    rw [Option.mem_def] at hx
    rw [hx] at h1
    simpa using h1
  · intro x hx
    rw [Option.mem_def] at hx
    rw [hx] at h2
    simpa using h2

/-- Contribution of one stack entry to the termination measure. -/
def entryMeasure : Option NodeId → Nat
  | none => 1
  | some i => 3 ^ (i + 1)

/-- Termination measure of the whole work stack. -/
def stackMeasure (s : List (Option NodeId)) : Nat :=
  (s.map entryMeasure).sum

theorem entryMeasure_pos (e : Option NodeId) : 1 ≤ entryMeasure e := by
  cases e with
  | none => exact le_refl 1
  | some i => exact Nat.one_le_pow _ _ (by norm_num)

theorem entryMeasure_le {e : Option NodeId} {i : Nat} (hb : ∀ x ∈ e, x < i) :
    entryMeasure e ≤ 3 ^ i := by
  cases e with
  | none => exact Nat.one_le_pow _ _ (by norm_num)
  | some l =>
    have hl : l < i := hb l rfl
    exact Nat.pow_le_pow_right (by norm_num) (Nat.succ_le_of_lt hl)

/-- The work-stack loop finishes (one way or another) whenever the fuel
exceeds the stack measure: every iteration strictly decreases the measure,
because an acyclic node only pushes operands with strictly smaller ids. -/
theorem backwardLoop_total (lg : ℚ → ℚ) :
    ∀ (fuel : Nat) (h : Heap) (s : List (Option NodeId)), Heap.WFp h →
      stackMeasure s < fuel → ∃ r, backwardLoop lg fuel h s = some r := by
  intro fuel
  induction fuel with
  | zero => intro h s _ hm; exact absurd hm (Nat.not_lt_zero _)
  | succ n ih =>
    intro h s hwf hm
    cases s with
    | nil => exact ⟨.ok h, rfl⟩
    | cons e rest =>
      have hcons : stackMeasure (e :: rest) = entryMeasure e + stackMeasure rest := by
        simp [stackMeasure]
      cases e with
      | none =>
        have hm' : stackMeasure rest < n := by
          rw [hcons] at hm
          simp only [entryMeasure] at hm
          omega
        obtain ⟨r, hr⟩ := ih h rest hwf hm'
        exact ⟨r, by simpa only [backwardLoop] using hr⟩
      | some i =>
        cases hgi : h.get? i with
        | none => exact ⟨.error .attributeError, by simp [backwardLoop, hgi]⟩
        | some v =>
          have hskip : stackMeasure rest < n := by
            rw [hcons] at hm
            have := entryMeasure_pos (some i)
            omega
          by_cases hrg : v.requiresGrad
          · cases hop : v.operation with
            | none =>
              obtain ⟨r, hr⟩ := ih h rest hwf hskip
              exact ⟨r, by simp [backwardLoop, hgi, hrg, hop, hr]⟩
            | some op =>
              cases hap : applyOp lg h i op with
              | error e =>
                exact ⟨.error e, by simp [backwardLoop, hgi, hrg, hop, hap]⟩
              | ok h2 =>
                have hwf2 : Heap.WFp h2 := wf_of_shape (applyOp_props hap).1 hwf
                obtain ⟨hbl, hbr⟩ := childrenBelow_split (hwf i v hgi)
                have hml := entryMeasure_le hbl
                have hmr := entryMeasure_le hbr
                have hm2 : stackMeasure (v.rightNode :: v.leftNode :: rest) < n := by
                  have e2 : stackMeasure (v.rightNode :: v.leftNode :: rest)
                      = entryMeasure v.rightNode
                        + (entryMeasure v.leftNode + stackMeasure rest) := by
                    simp [stackMeasure]
                  have e3 : entryMeasure (some i) = 3 * 3 ^ i := by
                    simp [entryMeasure, pow_succ, Nat.mul_comm]
                  have hpos : 0 < 3 ^ i := Nat.pos_pow_of_pos i (by norm_num)
                  rw [hcons, e3] at hm
                  omega
                obtain ⟨r, hr⟩ := ih h2 (v.rightNode :: v.leftNode :: rest) hwf2 hm2
                exact ⟨r, by simp [backwardLoop, hgi, hrg, hop, hap, hr]⟩
          · obtain ⟨r, hr⟩ := ih h rest hwf hskip
            exact ⟨r, by simp [backwardLoop, hgi, hrg, hr]⟩

/-- C10: `backward()` terminates on every acyclic arena (operand references
pointing strictly below the node's id, as the operator surface guarantees):
some finite fuel makes the work-stack loop finish. -/
theorem claim10_backward_terminates (lg : ℚ → ℚ) (h : Heap) (i : NodeId)
    (hwf : h.wfB = true) :
    ∃ fuel r, Variable.backward lg fuel h i = some r := by
  cases hgi : h.get? i with
  | none => exact ⟨1, .error .attributeError, by simp [Variable.backward, hgi]⟩
  | some v =>
    have hwfp : Heap.WFp h := (Heap.wfB_iff h).mp hwf
    have hwfp1 : Heap.WFp (h.setNode i { v with grad := some (.rat 1) }) :=
      wf_of_shape (setNode_grad_props _ hgi).1 hwfp
    have hms : stackMeasure [some i] < 3 ^ (i + 1) + 1 := by
      simp [stackMeasure, entryMeasure]
    obtain ⟨r, hr⟩ := backwardLoop_total lg (3 ^ (i + 1) + 1) _ [some i] hwfp1 hms
    exact ⟨3 ^ (i + 1) + 1, r, by simp [Variable.backward, hgi, hr]⟩

/-- A one-leaf arena used to instantiate `claim10_backward_terminates`. -/
def c10WitnessHeap : Heap :=
  ⟨[{ value := .rat 4, requiresGrad := true, grad := some (.rat 0),
      operation := none, leftNode := none, rightNode := none }]⟩

/-- Witness for `claim10_backward_terminates` on a concrete well-formed
arena. -/
theorem claim10_backward_terminates_witness :
    Heap.wfB c10WitnessHeap = true ∧
    ∃ fuel r, Variable.backward (fun _ => (0 : ℚ)) fuel c10WitnessHeap 0 = some r :=
  ⟨rfl, claim10_backward_terminates (fun _ => (0 : ℚ)) c10WitnessHeap 0 rfl⟩
